import Mathlib

/-!
Verification of the EIP-1559 fee-recommendation code in this repository.

The repository contains two variants of the estimator:
  * `src/local/eip1559_fees.py`   — function `estimate_eip1559_fees` (and its
    helpers `to_int_hexsafe`, `percentile_value`, `_flatten_rewards`);
  * `src/local/fees/fees_eip1559.py` — function `eip1559_fees` (and its own
    `to_int_hexsafe`).
Each variant is embedded below in its own namespace, named after its file.

Modelling conventions:
  * RPC results are an oracle (`W3`): each query either raises (`Except.error`)
    or returns a Python value (`RawVal`).  `time.sleep` has no observable
    effect and is dropped.  The block-count / percentile arguments passed to
    `eth.fee_history` only shape the node's reply, which the oracle already
    fixes, so they do not appear in the oracle calls.
  * Python ints are `ℤ` (arbitrary precision in Python as well).
  * The numeric configuration parameters (`reward_percentile`,
    `priority_fee_buffer`, `max_priority_fee_cap_gwei`) are Python floats /
    Decimals at the call sites; they are modelled as exact fractions
    (`PyRat`).  Wherever the source multiplies an integer by such a parameter
    in float arithmetic, the model computes the exact rational product and
    applies the source's rounding (`int(...)` truncates toward zero,
    `round(...)` rounds half-to-even, `Decimal.to_integral_value()` rounds
    half-to-even under the default context, `ROUND_HALF_UP` rounds half away
    from zero).  For IEEE doubles this is exact whenever the operands and the
    product are exactly representable (true at every concrete input used in
    the theorems below); the float caveat is recorded at each such definition.
-/

deriving instance DecidableEq for Except

/-- A Python value as it comes out of the RPC layer: `None`, an `int`, a
`str` (a list of characters), a `bytes`/`bytearray` (a list of byte values),
or some other object.  For an "other" object the model records the outcome of
Python's `int(val)` (`conv`, `none` when that call raises) and its truthiness,
which is all either source file ever observes about it. -/
inductive RawVal where
  | vnone
  | vint (i : ℤ)
  | vstr (s : List Char)
  | vbytes (bs : List ℕ)
  | vother (conv : Option ℤ) (truthy : Bool)
  deriving DecidableEq

/-- Python truthiness of a `RawVal` (used by the `or` in
`blk.get("baseFeePerGas") or blk.get("baseFee")`): `None`, `0`, the empty
string and empty bytes are falsy. -/
def RawVal.isTruthy : RawVal → Bool
  | .vnone => false
  | .vint i => i != 0
  | .vstr s => !s.isEmpty
  | .vbytes bs => !bs.isEmpty
  | .vother _ t => t

/-- ASCII whitespace stripped by Python's `int(str)` (space, tab, LF, VT, FF,
CR).  Python also strips some non-ASCII whitespace; the model covers the
ASCII range, which is what RPC responses contain. -/
def isPyWhitespace (c : Char) : Bool :=
  c.toNat = 32 || c.toNat = 9 || c.toNat = 10 || c.toNat = 11 ||
  c.toNat = 12 || c.toNat = 13

/-- Value of one digit character in the given base (`0-9`, `a-z`, `A-Z`),
`none` when the character is not a digit of that base. -/
def digitVal (base : ℕ) (c : Char) : Option ℕ :=
  let v : Option ℕ :=
    if 48 ≤ c.toNat ∧ c.toNat ≤ 57 then some (c.toNat - 48)
    else if 97 ≤ c.toNat ∧ c.toNat ≤ 122 then some (c.toNat - 87)
    else if 65 ≤ c.toNat ∧ c.toNat ≤ 90 then some (c.toNat - 55)
    else none
  match v with
  | some d => if d < base then some d else none
  | none => none

/-- Digits after the first one: Python allows a single `_` between digits
(`int("1_0") = 10`, `int("1__0")` and a trailing `_` raise). -/
def parseDigitsRest (base : ℕ) (acc : ℕ) : List Char → Option ℕ
  | [] => some acc
  | '_' :: c :: rest =>
    match digitVal base c with
    | some d => parseDigitsRest base (acc * base + d) rest
    | none => none
  | '_' :: [] => none
  | c :: rest =>
    match digitVal base c with
    | some d => parseDigitsRest base (acc * base + d) rest
    | none => none

/-- A non-empty digit run (with embedded underscores) in the given base. -/
def parseUnsigned (base : ℕ) : List Char → Option ℕ
  | [] => none
  | c :: rest =>
    match digitVal base c with
    | some d => parseDigitsRest base d rest
    | none => none

/-- Digit part with the optional `0x`/`0X` marker that Python's
`int(s, 16)` accepts (also `0x_1`, one underscore after the marker). -/
def parseBody (base : ℕ) (cs : List Char) : Option ℕ :=
  match cs with
  | '0' :: c :: rest =>
    if base = 16 && (c = 'x' || c = 'X') then
      match rest with
      | '_' :: rest2 => parseUnsigned 16 rest2
      | _ => parseUnsigned 16 rest
    else parseUnsigned base cs
  | _ => parseUnsigned base cs

/-- Python `int(s)` (base 10) / `int(s, 16)` on a character list: strip
whitespace at both ends, one optional sign, then the digit part;
`none` models `ValueError`. -/
def pyIntOfChars (base : ℕ) (cs : List Char) : Option ℤ :=
  let core := ((cs.dropWhile isPyWhitespace).reverse.dropWhile isPyWhitespace).reverse
  match core with
  | '+' :: rest => (parseBody base rest).map (fun n => (n : ℤ))
  | '-' :: rest => (parseBody base rest).map (fun n => -(n : ℤ))
  | _ => (parseBody base core).map (fun n => (n : ℤ))

/-- True exactly when the string starts with the two characters `0x`
(Python `val.startswith("0x")`: lowercase only, no whitespace skipped). -/
def hasHexMarker : List Char → Bool
  | '0' :: 'x' :: _ => true
  | _ => false

/-- Exact quotient `a / b` (with `0 < b`) rounded half-to-even: the semantics
of Python's built-in `round` and of `Decimal.to_integral_value()` under the
default context rounding. -/
def roundHalfEvenDiv (a b : ℤ) : ℤ :=
  if 2 * (a - a.fdiv b * b) < b then a.fdiv b
  else if b < 2 * (a - a.fdiv b * b) then a.fdiv b + 1
  else if a.fdiv b % 2 = 0 then a.fdiv b else a.fdiv b + 1

/-- Exact quotient `a / b` (with `0 < b`) rounded half away from zero:
`decimal.ROUND_HALF_UP`. -/
def roundHalfUpDiv (a b : ℤ) : ℤ :=
  if 0 ≤ a then (2 * a + b).fdiv (2 * b)
  else -((2 * (-a) + b).fdiv (2 * b))

/-- Ceiling of the exact quotient `a / b` (with `0 < b`). -/
def cdiv (a b : ℤ) : ℤ := -((-a).fdiv b)

/-- Insertion of an element into an ascending list, preserving order. -/
def insert_sorted (x : ℤ) : List ℤ → List ℤ
  | [] => [x]
  | y :: ys => if x ≤ y then x :: y :: ys else y :: insert_sorted x ys

/-- Ascending insertion sort: the observable behaviour of Python's
`sorted(...)` / `list.sort()` on a list of ints. -/
def py_sorted (l : List ℤ) : List ℤ := l.foldr insert_sorted []

/-- An exact fraction `n / d` standing for a numeric configuration parameter
(a Python float or Decimal at the call site). -/
structure PyRat where
  n : ℤ
  d : ℕ
  dpos : 0 < d

/-- The keyword parameters shared by both estimator variants.
`rpc_retry_delay` only feeds `time.sleep` and has no observable effect, so it
is not modelled.  `lookback_blocks` and `reward_percentile` are also passed to
`eth.fee_history`, whose reply the oracle fixes directly. -/
structure Config where
  lookback_blocks : ℕ
  reward_percentile : PyRat
  priority_fee_buffer : PyRat
  max_priority_fee_cap_gwei : PyRat
  base_fee_bump_blocks : ℕ
  rpc_retry_attempts : ℕ

/-- A block as observed through `blk.get(...)`: the value under
`"baseFeePerGas"` and the one under `"baseFee"` (`vnone` when the key is
absent, exactly what `dict.get` returns). -/
structure Block where
  baseFeePerGas : RawVal
  baseFee : RawVal
  deriving DecidableEq

/-- The RPC oracle: each query either raises (`error`) or returns a value.
`fee_history` is the `"reward"` field of the reply: one entry per block,
`none` for a block whose reward list is `None`; `max_priority_fee i` is the
outcome of the `i`-th access to `w3.eth.max_priority_fee` (an access that
does not raise yields a value — `vnone` models the attribute being absent or
`None`); `get_block_pending` / `get_block_latest` are
`w3.eth.get_block("pending")` / `("latest")`. -/
structure W3 where
  fee_history : Except Unit (List (Option (List RawVal)))
  max_priority_fee : ℕ → Except Unit RawVal
  get_block_pending : Except Unit Block
  get_block_latest : Except Unit Block

/-- The retry loop shared by both variants
(`for attempt in range(rpc_retry_attempts): try: ... break except: ...`):
an access that raises moves on to the next attempt; an access that succeeds
ends the loop at once with the normalized value (even when normalization
yields `none`); when every attempt raises the result is `none`. -/
def node_tip_attempts (norm : RawVal → Option ℤ) (w3 : W3) : ℕ → ℕ → Option ℤ
  | 0, _ => none
  | k + 1, i =>
    match w3.max_priority_fee i with
    | .ok raw => norm raw
    | .error _ => node_tip_attempts norm w3 k (i + 1)

/-- `to_int_hexsafe(blk.get("baseFeePerGas") or blk.get("baseFee"))`:
Python's `or` picks the second operand when the first is falsy. -/
def base_fee_of_block (norm : RawVal → Option ℤ) (blk : Block) : Option ℤ :=
  norm (if blk.baseFeePerGas.isTruthy then blk.baseFeePerGas else blk.baseFee)

/-- One iteration of the base-fee loop body: a raising `get_block` yields no
value, otherwise the block's base-fee field is normalized. -/
def base_fee_attempt (norm : RawVal → Option ℤ) : Except Unit Block → Option ℤ
  | .error _ => none
  | .ok blk => base_fee_of_block norm blk

/-- The `for bname in ("pending", "latest")` loop of both variants: the first
tag that yields a normalized base fee wins; `none` when both fail. -/
def fetch_base_fee (norm : RawVal → Option ℤ) (w3 : W3) : Option ℤ :=
  match base_fee_attempt norm w3.get_block_pending with
  | some bf => some bf
  | none => base_fee_attempt norm w3.get_block_latest


namespace eip1559_fees
/-! Embedding of `src/local/eip1559_fees.py`. -/

/-- `int(val, 16) if val.startswith("0x") else int(val)` (lines 26-31). -/
def str_to_int (s : List Char) : Option ℤ :=
  if hasHexMarker s then pyIntOfChars 16 s else pyIntOfChars 10 s

/-- `to_int_hexsafe` (lines 20-35).  This variant has no `bytes` branch, so a
byte string falls through to the final `int(val)`, which decodes the bytes as
an ASCII decimal literal (`int(b"256") = 256`, `int(b"\x01\x00")` raises). -/
def to_int_hexsafe : RawVal → Option ℤ
  | .vnone => none
  | .vint i => some i
  | .vstr s => str_to_int s
  | .vbytes bs => pyIntOfChars 10 (bs.map Char.ofNat)
  | .vother conv _ => conv

/-- `gwei_to_wei` (lines 14-15): `int(g * 10**9)` — exact product, truncated
toward zero (exact for the float arguments used at every call site). -/
def gwei_to_wei (g : PyRat) : ℤ := (g.n * 10 ^ 9).tdiv g.d

/-- `percentile_value` (lines 37-51), with the percentile as the exact
fraction `p.n / p.d`.  `k = (len(ds) - 1) * (percentile / 100.0)` is the
exact fraction `kn / kd` below; `math.floor` / `math.ceil` are `Int.fdiv` /
`cdiv`, `int(k)` truncates toward zero (`Int.tdiv`), and
`int(round(d0 + (k - f) * (d1 - d0)))` rounds the exact interpolated value
half-to-even.  List indexing is total in the source only because every index
is in range; `getD _ 0` keeps the same values. -/
def percentile_value (data : List ℤ) (p : PyRat) : Option ℤ :=
  if data.isEmpty then none
  else
    let ds := py_sorted data
    if p.n ≤ 0 then some (ds.getD 0 0)
    else if 100 * (p.d : ℤ) ≤ p.n then some (ds.getD (ds.length - 1) 0)
    else
      let kn : ℤ := ((ds.length - 1 : ℕ) : ℤ) * p.n
      let kd : ℤ := 100 * (p.d : ℤ)
      let f : ℤ := kn.fdiv kd
      let c : ℤ := cdiv kn kd
      if f = c then some (ds.getD (kn.tdiv kd).toNat 0)
      else
        let d0 := ds.getD f.toNat 0
        let d1 := ds.getD c.toNat 0
        some (roundHalfEvenDiv (d0 * kd + (kn - f * kd) * (d1 - d0)) kd)

/-- `_flatten_rewards` (lines 53-66): skip `None` blocks, keep every element
of each block list that `to_int_hexsafe` accepts, in order. -/
def flatten_rewards : List (Option (List RawVal)) → List ℤ
  | [] => []
  | none :: rest => flatten_rewards rest
  | some rl :: rest => rl.filterMap to_int_hexsafe ++ flatten_rewards rest

/-- Step 1 of `estimate_eip1559_fees` (lines 87-97): the whole block sits in
`try/except`, so a raising `fee_history` leaves `median_unbuffered = None`. -/
def hist_median (w3 : W3) (cfg : Config) : Option ℤ :=
  match w3.fee_history with
  | .error _ => none
  | .ok rewards => percentile_value (flatten_rewards rewards) cfg.reward_percentile

/-- Step 2 (lines 100-118): the retry loop around the node's
`max_priority_fee` suggestion.  The `hasattr` / `callable` probing inside the
`try` body only determines which value reaches `to_int_hexsafe`; the oracle
returns that value directly. -/
def node_tip (w3 : W3) (cfg : Config) : Option ℤ :=
  node_tip_attempts to_int_hexsafe w3 cfg.rpc_retry_attempts 0

/-- `MAX_PRIORITY_CAP_WEI = gwei_to_wei(max_priority_fee_cap_gwei)`
(line 121). -/
def cap_wei (cfg : Config) : ℤ := gwei_to_wei cfg.max_priority_fee_cap_gwei

/-- Lines 122-126: cap an optional signal at `MAX_PRIORITY_CAP_WEI`. -/
def capped (cfg : Config) (x : Option ℤ) : Option ℤ :=
  x.map (fun v => min v (cap_wei cfg))

/-- Lines 131-132: `int(v * (1.0 + priority_fee_buffer))` — the exact product
`v * (d + n) / d`, truncated toward zero.  (In IEEE doubles this is exact
whenever `1 + buffer` and the product are exactly representable; with the
default `buffer = 0.10` the float product can differ from the exact value for
very large `v`, which no theorem below relies on.) -/
def buffered (cfg : Config) (x : Option ℤ) : Option ℤ :=
  x.map (fun v =>
    (v * ((cfg.priority_fee_buffer.d : ℤ) + cfg.priority_fee_buffer.n)).tdiv
      cfg.priority_fee_buffer.d)

/-- Lines 134-139: `tip_candidates = [c for c in (buffered_median,
buffered_node_tip) if c is not None]; tip = min(tip_candidates)` when the
list is non-empty, else the constant fallback `gwei_to_wei(0.1)`
(`int(0.1 * 10**9) = 10**8` exactly in floats as well). -/
def tip_from_candidates : Option ℤ → Option ℤ → ℤ
  | some a, some b => min a b
  | some a, none => a
  | none, some b => b
  | none, none => gwei_to_wei ⟨1, 10, by decide⟩

/-- Lines 128-142: the tip actually used — candidate selection followed by
the final cap `tip = min(tip, MAX_PRIORITY_CAP_WEI)`. -/
def tip (w3 : W3) (cfg : Config) : ℤ :=
  min
    (tip_from_candidates
      (buffered cfg (capped cfg (hist_median w3 cfg)))
      (buffered cfg (capped cfg (node_tip w3 cfg))))
    (cap_wei cfg)

/-- Lines 162-163: `int(base_fee * ((1 + 1/8.0) ** bump))` — the exact value
`base_fee * 9^bump / 8^bump` truncated toward zero.  `1.125` and its powers
up to `bump = 16` are exact dyadic doubles and the float product equals the
exact product whenever `|base_fee| * 9^bump < 2^53`, which holds at every
concrete input used below; outside that range the float rounds once more,
which no theorem below relies on. -/
def projected_base_max (base_fee : ℤ) (bump : ℕ) : ℤ :=
  (base_fee * 9 ^ bump).tdiv (8 ^ bump)

/-- `estimate_eip1559_fees` (lines 68-167): returns
`(base_fee, tip, median_unbuffered, max_fee)`; note the returned
`median_unbuffered` is the capped value (line 126 reassigns it before the
return).  `raise RuntimeError` when neither block query yields a base fee. -/
def estimate_eip1559_fees (w3 : W3) (cfg : Config) :
    Except Unit (ℤ × ℤ × Option ℤ × ℤ) :=
  match fetch_base_fee to_int_hexsafe w3 with
  | none => .error ()
  | some base_fee =>
    .ok (base_fee, tip w3 cfg, capped cfg (hist_median w3 cfg),
      projected_base_max base_fee cfg.base_fee_bump_blocks + tip w3 cfg)

end eip1559_fees


namespace fees_eip1559
/-! Embedding of `src/local/fees/fees_eip1559.py`. -/

/-- `int(val, 16) if val.startswith("0x") else int(val)` (lines 22-26). -/
def str_to_int (s : List Char) : Option ℤ :=
  if hasHexMarker s then pyIntOfChars 16 s else pyIntOfChars 10 s

/-- `int.from_bytes(val, "big")`: big-endian unsigned interpretation
(never raises on bytes). -/
def be_bytes (bs : List ℕ) : ℤ := bs.foldl (fun acc b => acc * 256 + (b : ℤ)) 0

/-- `to_int_hexsafe` (lines 17-35): like the other variant but with an
explicit `bytes`/`bytearray` branch. -/
def to_int_hexsafe : RawVal → Option ℤ
  | .vnone => none
  | .vint i => some i
  | .vstr s => str_to_int s
  | .vbytes bs => some (be_bytes bs)
  | .vother conv _ => conv

/-- `gwei_to_wei` (lines 10-12): `Decimal` product rounded `ROUND_HALF_UP`
(exact: `Decimal(str(g))` is the decimal value `g.n / g.d`). -/
def gwei_to_wei (g : PyRat) : ℤ := roundHalfUpDiv (g.n * 10 ^ 9) g.d

/-- Lines 53-59: keep `br[0]` of every truthy per-block reward list, when it
normalizes. -/
def collect_tips : List (Option (List RawVal)) → List ℤ
  | [] => []
  | none :: rest => collect_tips rest
  | some [] :: rest => collect_tips rest
  | some (r :: _) :: rest =>
    match to_int_hexsafe r with
    | some v => v :: collect_tips rest
    | none => collect_tips rest

/-- Lines 60-63: the integer median of the collected tips — middle element
for odd length, floor-average (`//`) of the two middle elements for even
length, `None` for an empty list. -/
def median_of (tips : List ℤ) : Option ℤ :=
  if tips.isEmpty then none
  else
    let ts := py_sorted tips
    let mid := ts.length / 2
    if ts.length % 2 = 1 then some (ts.getD mid 0)
    else some ((ts.getD (mid - 1) 0 + ts.getD mid 0).fdiv 2)

/-- Lines 48-65: the historical signal; the whole block is in `try/except`,
so a raising `fee_history` leaves it `None`. -/
def hist_median (w3 : W3) : Option ℤ :=
  match w3.fee_history with
  | .error _ => none
  | .ok rewards => median_of (collect_tips rewards)

/-- Lines 68-76: the retry loop around
`getattr(w3.eth, "max_priority_fee", None)`. -/
def node_tip (w3 : W3) (cfg : Config) : Option ℤ :=
  node_tip_attempts to_int_hexsafe w3 cfg.rpc_retry_attempts 0

/-- `MAX_PRIORITY_CAP_WEI = gwei_to_wei(max_priority_fee_cap_gwei)`
(line 79). -/
def cap_wei (cfg : Config) : ℤ := gwei_to_wei cfg.max_priority_fee_cap_gwei

/-- Lines 80-83: cap an optional signal at `MAX_PRIORITY_CAP_WEI`. -/
def capped (cfg : Config) (x : Option ℤ) : Option ℤ :=
  x.map (fun v => min v (cap_wei cfg))

/-- Lines 86-91: `int((Decimal(v) * (1 + buf)).to_integral_value())` — the
exact product `v * (d + n) / d` rounded half-to-even (the default context
rounding; exact as long as the product fits in the 36 significant digits set
by `getcontext().prec = 36`, true throughout). -/
def buffered (cfg : Config) (x : Option ℤ) : Option ℤ :=
  x.map (fun v =>
    roundHalfEvenDiv (v * ((cfg.priority_fee_buffer.d : ℤ) + cfg.priority_fee_buffer.n))
      cfg.priority_fee_buffer.d)

/-- Lines 87-96: `candidates` in order (median first, node tip second);
`tip = max(candidates)` when non-empty, else the constant fallback
`gwei_to_wei(Decimal("0.2")) = 2 * 10**8`. -/
def tip_from_candidates : Option ℤ → Option ℤ → ℤ
  | some a, some b => max a b
  | some a, none => a
  | none, some b => b
  | none, none => gwei_to_wei ⟨2, 10, by decide⟩

/-- Lines 78-98: candidate selection followed by the final cap
`tip = min(tip, MAX_PRIORITY_CAP_WEI)`. -/
def tip (w3 : W3) (cfg : Config) : ℤ :=
  min
    (tip_from_candidates
      (buffered cfg (capped cfg (hist_median w3)))
      (buffered cfg (capped cfg (node_tip w3 cfg))))
    (cap_wei cfg)

/-- Lines 115-117: `nr = base_fee * 9**bump; dr = 8**bump;
max_base_fee = (nr + dr - 1) // dr` — exact integer ceiling division via
Python's floor division `//`. -/
def max_base_fee (base_fee : ℤ) (bump : ℕ) : ℤ :=
  (base_fee * 9 ^ bump + 8 ^ bump - 1).fdiv (8 ^ bump)

/-- `eip1559_fees` (lines 37-121): returns `(base_fee, tip, max_fee)`;
`raise RuntimeError` when neither block query yields a base fee. -/
def eip1559_fees (w3 : W3) (cfg : Config) : Except Unit (ℤ × ℤ × ℤ) :=
  match fetch_base_fee to_int_hexsafe w3 with
  | none => .error ()
  | some base_fee =>
    .ok (base_fee, tip w3 cfg,
      max_base_fee base_fee cfg.base_fee_bump_blocks + tip w3 cfg)

end fees_eip1559

/-! ## Specification-side definitions

These two definitions are written from the wording of the specification
(§4.3 step 1 and its §8 scenarios), to be compared with the implementation
above; they are the reference side of the refinement theorems, not
translations of the source. -/

/-- Round half-to-even on an exact rational, the rounding rule the
specification's §8 scenario attributes to the implementation
(`17.5 → 18`). -/
def specRoundHalfEven (q : ℚ) : ℤ :=
  if Int.fract q < 1 / 2 then ⌊q⌋
  else if 1 / 2 < Int.fract q then ⌊q⌋ + 1
  else if 2 ∣ ⌊q⌋ then ⌊q⌋ else ⌊q⌋ + 1

/-- Modelled from the spec (§4.3 step 1): "for position `k = (n-1) * p/100`,
interpolate between floor(k) and ceil(k) order statistics; if they coincide,
use that value exactly", over the sorted samples, with the interpolated value
rounded per `specRoundHalfEven`. -/
def spec_percentile_rule (data : List ℤ) (p : ℚ) : ℤ :=
  let ds := py_sorted data
  let k : ℚ := ((ds.length - 1 : ℕ) : ℚ) * (p / 100)
  if ⌊k⌋ = ⌈k⌉ then ds.getD ⌊k⌋.toNat 0
  else
    let d0 : ℚ := (ds.getD ⌊k⌋.toNat 0 : ℤ)
    let d1 : ℚ := (ds.getD ⌈k⌉.toNat 0 : ℤ)
    specRoundHalfEven (d0 + (k - ⌊k⌋) * (d1 - d0))

/-! ## Concrete fixtures -/

/-- The default keyword arguments of `estimate_eip1559_fees` (lines 70-76):
lookback 7, percentile 50.0, buffer 0.10, cap 1.0 gwei, bump 2,
3 retry attempts. -/
def cfgA0 : Config :=
  ⟨7, ⟨50, 1, by decide⟩, ⟨1, 10, by decide⟩, ⟨1, 1, by decide⟩, 2, 3⟩

/-- The default keyword arguments of `eip1559_fees` (lines 39-45):
lookback 8, percentile 40.0, buffer 0.10, cap 1.0 gwei, bump 2,
3 retry attempts. -/
def cfgB0 : Config :=
  ⟨8, ⟨40, 1, by decide⟩, ⟨1, 10, by decide⟩, ⟨1, 1, by decide⟩, 2, 3⟩

/-- A well-behaved node: one historical reward of 100 wei, node tip
suggestion 200 wei, pending base fee 1000 wei. -/
def w3good : W3 :=
  ⟨.ok [some [.vint 100]], fun _ => .ok (.vint 200),
   .ok ⟨.vint 1000, .vnone⟩, .ok ⟨.vint 900, .vnone⟩⟩

/-- A node whose tip suggestion and base fee are negative encodings. -/
def w3neg : W3 :=
  ⟨.error (), fun _ => .ok (.vint (-100)),
   .ok ⟨.vint (-5), .vnone⟩, .ok ⟨.vint (-5), .vnone⟩⟩

/-- A node with a negative base fee and no tip signal at all. -/
def w3negbase : W3 :=
  ⟨.error (), fun _ => .error (), .ok ⟨.vint (-8), .vnone⟩, .error ()⟩

/-- A node whose first tip access succeeds but returns an unparseable value,
while the next access would return a usable one. -/
def w3retry : W3 :=
  ⟨.error (),
   fun i => if i = 0 then .ok (.vstr "garbage".data) else .ok (.vint 5),
   .ok ⟨.vint 1000, .vnone⟩, .ok ⟨.vint 1000, .vnone⟩⟩

/-- A node where every query raises. -/
def w3down : W3 := ⟨.error (), fun _ => .error (), .error (), .error ()⟩

/-- Every value the oracle can hand to the given normalizer normalizes to a
non-negative integer: the well-formedness of node responses that the amended
C9 assumes (the normalizers themselves accept negative encodings). -/
def nonneg_node_values (norm : RawVal → Option ℤ) (w3 : W3) : Prop :=
  (∀ rewards, w3.fee_history = .ok rewards →
    ∀ obr ∈ rewards, ∀ br, obr = some br → ∀ r ∈ br, ∀ z, norm r = some z → 0 ≤ z) ∧
  (∀ (i : ℕ) (v : RawVal) (z : ℤ),
    w3.max_priority_fee i = .ok v → norm v = some z → 0 ≤ z) ∧
  (∀ (blk : Block) (z : ℤ),
    w3.get_block_pending = .ok blk ∨ w3.get_block_latest = .ok blk →
    base_fee_of_block norm blk = some z → 0 ≤ z)

/-! ## Arithmetic bridge lemmas -/

/-- Floor division by a positive integer is the floor of the exact
quotient. -/
theorem fdiv_eq_floor (a b : ℤ) (hb : 0 < b) : a.fdiv b = ⌊(a : ℚ) / b⌋ := by
  rw [Int.fdiv_eq_ediv _ hb.le]
  have h0 : b * (a / b) + a % b = a := Int.ediv_add_emod a b
  have h1 : 0 ≤ a % b := Int.emod_nonneg a (by omega)
  have h2 : a % b < b := Int.emod_lt_of_pos a hb
  have hbQ : (0 : ℚ) < (b : ℚ) := by exact_mod_cast hb
  symm
  rw [Int.floor_eq_iff]
  constructor
  · rw [le_div_iff₀ hbQ]
    have hZ : b * (a / b) ≤ a := by linarith
    have hZQ : ((b * (a / b) : ℤ) : ℚ) ≤ ((a : ℤ) : ℚ) := by exact_mod_cast hZ
    push_cast at hZQ
    linarith
  · rw [div_lt_iff₀ hbQ]
    have hZ : a < b * (a / b) + b := by linarith
    have hZQ : ((a : ℤ) : ℚ) < ((b * (a / b) + b : ℤ) : ℚ) := by exact_mod_cast hZ
    push_cast at hZQ ⊢
    linarith

/-- `cdiv` by a positive integer is the ceiling of the exact quotient. -/
theorem cdiv_eq_ceil (a b : ℤ) (hb : 0 < b) : cdiv a b = ⌈(a : ℚ) / b⌉ := by
  rw [cdiv, fdiv_eq_floor _ _ hb]
  have : ((-a : ℤ) : ℚ) / b = -((a : ℚ) / b) := by push_cast; ring
  rw [this, Int.floor_neg, neg_neg]

/-- Truncating division agrees with floor division on non-negative
numerators. -/
theorem tdiv_eq_fdiv (a b : ℤ) (ha : 0 ≤ a) (hb : 0 ≤ b) :
    a.tdiv b = a.fdiv b := by
  rw [Int.tdiv_eq_ediv ha hb, Int.fdiv_eq_ediv _ hb]

/-- `roundHalfEvenDiv` computes `specRoundHalfEven` of the exact quotient. -/
theorem roundHalfEvenDiv_eq (a b : ℤ) (hb : 0 < b) :
    roundHalfEvenDiv a b = specRoundHalfEven ((a : ℚ) / b) := by
  have hq : a.fdiv b = ⌊(a : ℚ) / b⌋ := fdiv_eq_floor a b hb
  have hbQ : (0 : ℚ) < (b : ℚ) := by exact_mod_cast hb
  have hfr : Int.fract ((a : ℚ) / b) = ((a - a.fdiv b * b : ℤ) : ℚ) / b := by
    rw [← Int.self_sub_floor, ← hq]
    push_cast
    field_simp
    ring
  have e1 : Int.fract ((a : ℚ) / b) < 1 / 2 ↔ 2 * (a - a.fdiv b * b) < b := by
    rw [hfr, div_lt_iff₀ hbQ]
    constructor
    · intro h
      have hQ : ((2 * (a - a.fdiv b * b) : ℤ) : ℚ) < ((b : ℤ) : ℚ) := by
        push_cast
        push_cast at h
        linarith
      exact_mod_cast hQ
    · intro h
      have hQ : ((2 * (a - a.fdiv b * b) : ℤ) : ℚ) < ((b : ℤ) : ℚ) := by exact_mod_cast h
      push_cast at hQ ⊢
      linarith
  have e2 : 1 / 2 < Int.fract ((a : ℚ) / b) ↔ b < 2 * (a - a.fdiv b * b) := by
    rw [hfr, lt_div_iff₀ hbQ]
    constructor
    · intro h
      have hQ : ((b : ℤ) : ℚ) < ((2 * (a - a.fdiv b * b) : ℤ) : ℚ) := by
        push_cast
        push_cast at h
        linarith
      exact_mod_cast hQ
    · intro h
      have hQ : ((b : ℤ) : ℚ) < ((2 * (a - a.fdiv b * b) : ℤ) : ℚ) := by exact_mod_cast h
      push_cast at hQ ⊢
      linarith
  have e3 : a.fdiv b % 2 = 0 ↔ 2 ∣ a.fdiv b := by omega
  rw [roundHalfEvenDiv, specRoundHalfEven, ← hq]
  simp only [e1, e2, e3]

/-- `roundHalfEvenDiv` of a non-negative exact quotient is non-negative. -/
theorem roundHalfEvenDiv_nonneg {a b : ℤ} (ha : 0 ≤ a) (hb : 0 < b) :
    0 ≤ roundHalfEvenDiv a b := by
  have := Int.fdiv_nonneg ha hb.le
  rw [roundHalfEvenDiv]
  split_ifs <;> omega

/-- The `(nr + dr - 1) // dr` idiom is exact integer ceiling division. -/
theorem add_sub_one_fdiv_eq_ceil (n d : ℤ) (hd : 0 < d) :
    (n + d - 1).fdiv d = ⌈(n : ℚ) / d⌉ := by
  rw [Int.fdiv_eq_ediv _ hd.le]
  have h0 : d * ((n + d - 1) / d) + (n + d - 1) % d = n + d - 1 :=
    Int.ediv_add_emod (n + d - 1) d
  have h1 : 0 ≤ (n + d - 1) % d := Int.emod_nonneg (n + d - 1) (by omega)
  have h2 : (n + d - 1) % d < d := Int.emod_lt_of_pos (n + d - 1) hd
  have hdQ : (0 : ℚ) < (d : ℚ) := by exact_mod_cast hd
  symm
  rw [Int.ceil_eq_iff]
  constructor
  · rw [lt_div_iff₀ hdQ]
    have hZ : d * ((n + d - 1) / d) - d < n := by linarith
    have hZQ : ((d * ((n + d - 1) / d) - d : ℤ) : ℚ) < ((n : ℤ) : ℚ) := by
      exact_mod_cast hZ
    push_cast at hZQ ⊢
    linarith
  · rw [div_le_iff₀ hdQ]
    have hZ : n ≤ d * ((n + d - 1) / d) := by linarith
    have hZQ : ((n : ℤ) : ℚ) ≤ ((d * ((n + d - 1) / d) : ℤ) : ℚ) := by
      exact_mod_cast hZ
    push_cast at hZQ ⊢
    linarith

/-! ## List lemmas -/

/-- Membership in an insertion step. -/
theorem mem_insert_sorted {x a : ℤ} {l : List ℤ} :
    x ∈ insert_sorted a l ↔ x = a ∨ x ∈ l := by
  induction l with
  | nil => simp [insert_sorted]
  | cons y ys ih =>
    rw [insert_sorted]
    split_ifs
    · simp [List.mem_cons]
    · simp only [List.mem_cons, ih]
      tauto

/-- Sorting does not change membership. -/
theorem mem_py_sorted (l : List ℤ) (x : ℤ) : x ∈ py_sorted l ↔ x ∈ l := by
  induction l with
  | nil => simp [py_sorted]
  | cons y ys ih =>
    show x ∈ insert_sorted y (py_sorted ys) ↔ _
    rw [mem_insert_sorted, ih]
    simp [List.mem_cons]

/-- `getD` of a list of non-negative values with a non-negative default. -/
theorem getD_nonneg {l : List ℤ} (hl : ∀ x ∈ l, 0 ≤ x) {dflt : ℤ} (hd : 0 ≤ dflt) :
    ∀ n, 0 ≤ l.getD n dflt := by
  induction l with
  | nil => intro n; simpa [List.getD] using hd
  | cons y ys ih =>
    intro n
    cases n with
    | zero => simpa using hl y (by simp)
    | succ m => simpa using ih (fun x hx => hl x (by simp [hx])) m

/-! ## Non-negativity of the derived signals -/

/-- The interpolation numerator used by `percentile_value` is non-negative
when both bracketing order statistics are. -/
theorem interp_num_nonneg {d0 d1 kn kd : ℤ} (h0 : 0 ≤ d0) (h1 : 0 ≤ d1)
    (hkd : 0 < kd) : 0 ≤ d0 * kd + (kn - kn.fdiv kd * kd) * (d1 - d0) := by
  rw [Int.fdiv_eq_ediv _ hkd.le]
  have hm : kn % kd = kn - kd * (kn / kd) := Int.emod_def kn kd
  have hm1 : 0 ≤ kn % kd := Int.emod_nonneg kn (by omega)
  have hm2 : kn % kd < kd := Int.emod_lt_of_pos kn hkd
  have ht1 : 0 ≤ kn - kn / kd * kd := by linarith
  have ht2 : kn - kn / kd * kd ≤ kd := by linarith
  have p0 : 0 ≤ d0 * (kd - (kn - kn / kd * kd)) := mul_nonneg h0 (by linarith)
  have p1 : 0 ≤ d1 * (kn - kn / kd * kd) := mul_nonneg h1 ht1
  linarith

/-- `percentile_value` of a list of non-negative samples is non-negative. -/
theorem percentile_value_nonneg {data : List ℤ} {p : PyRat} {v : ℤ}
    (hdata : ∀ x ∈ data, 0 ≤ x)
    (hv : eip1559_fees.percentile_value data p = some v) : 0 ≤ v := by
  have hds : ∀ x ∈ py_sorted data, 0 ≤ x :=
    fun x hx => hdata x ((mem_py_sorted data x).1 hx)
  have hkd : (0 : ℤ) < 100 * (p.d : ℤ) := by
    have := p.dpos
    positivity
  simp only [eip1559_fees.percentile_value] at hv
  split_ifs at hv with h1 h2 h3 h4
  · simp only [Option.some.injEq] at hv
    subst hv
    exact getD_nonneg hds le_rfl _
  · simp only [Option.some.injEq] at hv
    subst hv
    exact getD_nonneg hds le_rfl _
  · simp only [Option.some.injEq] at hv
    subst hv
    exact getD_nonneg hds le_rfl _
  · simp only [Option.some.injEq] at hv
    subst hv
    exact roundHalfEvenDiv_nonneg
      (interp_num_nonneg (getD_nonneg hds le_rfl _) (getD_nonneg hds le_rfl _) hkd)
      hkd

/-- `median_of` of a list of non-negative samples is non-negative. -/
theorem median_of_nonneg {tips : List ℤ} {v : ℤ} (h : ∀ x ∈ tips, 0 ≤ x)
    (hv : fees_eip1559.median_of tips = some v) : 0 ≤ v := by
  have hts : ∀ x ∈ py_sorted tips, 0 ≤ x :=
    fun x hx => h x ((mem_py_sorted tips x).1 hx)
  simp only [fees_eip1559.median_of] at hv
  split_ifs at hv with h1 h2
  · simp only [Option.some.injEq] at hv
    subst hv
    exact getD_nonneg hts le_rfl _
  · simp only [Option.some.injEq] at hv
    subst hv
    exact Int.fdiv_nonneg
      (add_nonneg (getD_nonneg hts le_rfl _) (getD_nonneg hts le_rfl _))
      (by omega)

/-- Every element of `flatten_rewards` is non-negative when every normalized
reward value is. -/
theorem flatten_rewards_nonneg (rewards : List (Option (List RawVal)))
    (h : ∀ obr ∈ rewards, ∀ br, obr = some br → ∀ r ∈ br, ∀ z,
      eip1559_fees.to_int_hexsafe r = some z → 0 ≤ z) :
    ∀ z ∈ eip1559_fees.flatten_rewards rewards, 0 ≤ z := by
  induction rewards with
  | nil => intro z hz; simp [eip1559_fees.flatten_rewards] at hz
  | cons head rest ih =>
    intro z hz
    cases head with
    | none =>
      rw [eip1559_fees.flatten_rewards] at hz
      exact ih (fun obr hobr => h obr (List.mem_cons_of_mem _ hobr)) z hz
    | some rl =>
      rw [eip1559_fees.flatten_rewards] at hz
      rcases List.mem_append.1 hz with hz | hz
      · rcases List.mem_filterMap.1 hz with ⟨r, hr, hnorm⟩
        exact h (some rl) (List.mem_cons_self _ _) rl rfl r hr z hnorm
      · exact ih (fun obr hobr => h obr (List.mem_cons_of_mem _ hobr)) z hz

/-- Every element of `collect_tips` is non-negative when every normalized
reward value is. -/
theorem collect_tips_nonneg (rewards : List (Option (List RawVal)))
    (h : ∀ obr ∈ rewards, ∀ br, obr = some br → ∀ r ∈ br, ∀ z,
      fees_eip1559.to_int_hexsafe r = some z → 0 ≤ z) :
    ∀ z ∈ fees_eip1559.collect_tips rewards, 0 ≤ z := by
  induction rewards with
  | nil => intro z hz; simp [fees_eip1559.collect_tips] at hz
  | cons head rest ih =>
    intro z hz
    have hrest := ih (fun obr hobr => h obr (List.mem_cons_of_mem _ hobr))
    match head with
    | none =>
      rw [fees_eip1559.collect_tips] at hz
      exact hrest z hz
    | some [] =>
      rw [fees_eip1559.collect_tips] at hz
      exact hrest z hz
    | some (r :: tl) =>
      rw [fees_eip1559.collect_tips] at hz
      cases hn : fees_eip1559.to_int_hexsafe r with
      | none => rw [hn] at hz; exact hrest z hz
      | some w =>
        rw [hn] at hz
        rcases List.mem_cons.1 hz with rfl | hz
        · exact h (some (r :: tl)) (List.mem_cons_self _ _) (r :: tl) rfl r
            (List.mem_cons_self _ _) z hn
        · exact hrest z hz

/-! ## The node-tip retry loop -/

/-- A `some` result of the retry loop comes from a successful attempt. -/
theorem node_tip_attempts_some (norm : RawVal → Option ℤ) (w3 : W3) :
    ∀ (n i : ℕ) (z : ℤ), node_tip_attempts norm w3 n i = some z →
      ∃ j v, j < n ∧ w3.max_priority_fee (i + j) = .ok v ∧ norm v = some z := by
  intro n
  induction n with
  | zero => intro i z hz; simp [node_tip_attempts] at hz
  | succ k ih =>
    intro i z hz
    simp only [node_tip_attempts] at hz
    cases hm : w3.max_priority_fee i with
    | ok v =>
      rw [hm] at hz
      exact ⟨0, v, by omega, by simpa using hm, hz⟩
    | error e =>
      rw [hm] at hz
      obtain ⟨j, v, hj, hok, hnorm⟩ := ih (i + 1) z hz
      exact ⟨j + 1, v, by omega,
        by rw [show i + (j + 1) = i + 1 + j by omega]; exact hok, hnorm⟩

/-- When every attempt raises, the retry loop yields `none`. -/
theorem node_tip_attempts_all_error (norm : RawVal → Option ℤ) (w3 : W3) :
    ∀ (n i : ℕ), (∀ j, j < n → w3.max_priority_fee (i + j) = .error ()) →
      node_tip_attempts norm w3 n i = none := by
  intro n
  induction n with
  | zero => intro i _; rfl
  | succ k ih =>
    intro i h
    simp only [node_tip_attempts]
    rw [show w3.max_priority_fee i = .error () from by simpa using h 0 (by omega)]
    exact ih (i + 1) fun j hj => by
      rw [show i + 1 + j = i + (j + 1) by omega]
      exact h (j + 1) (by omega)

/-- The first non-raising attempt ends the loop with its normalized value,
whether or not normalization succeeds. -/
theorem node_tip_attempts_first_ok (norm : RawVal → Option ℤ) (w3 : W3) :
    ∀ (n i j : ℕ) (v : RawVal), j < n →
      (∀ m, m < j → w3.max_priority_fee (i + m) = .error ()) →
      w3.max_priority_fee (i + j) = .ok v →
      node_tip_attempts norm w3 n i = norm v := by
  intro n
  induction n with
  | zero => intro i j v hj _ _; exact absurd hj (Nat.not_lt_zero j)
  | succ k ih =>
    intro i j v hj hprev hok
    simp only [node_tip_attempts]
    cases j with
    | zero => rw [show w3.max_priority_fee i = .ok v from by simpa using hok]
    | succ j' =>
      rw [show w3.max_priority_fee i = .error () from by simpa using hprev 0 (by omega)]
      exact ih (i + 1) j' v (by omega)
        (fun m hm => by
          rw [show i + 1 + m = i + (m + 1) by omega]
          exact hprev (m + 1) (by omega))
        (by rw [show i + 1 + j' = i + (j' + 1) by omega]; exact hok)

/-! ## The base-fee fetch and the top-level results -/

/-- The base-fee loop fails exactly when both block queries fail to yield a
base fee. -/
theorem fetch_base_fee_none_iff (norm : RawVal → Option ℤ) (w3 : W3) :
    fetch_base_fee norm w3 = none ↔
      base_fee_attempt norm w3.get_block_pending = none ∧
      base_fee_attempt norm w3.get_block_latest = none := by
  cases h : base_fee_attempt norm w3.get_block_pending <;>
    simp [fetch_base_fee, h]

/-- Inversion of a successful `estimate_eip1559_fees` run. -/
theorem estimateA_ok_elim {w3 : W3} {cfg : Config} {bf tp : ℤ} {med : Option ℤ}
    {mf : ℤ}
    (h : eip1559_fees.estimate_eip1559_fees w3 cfg = .ok (bf, tp, med, mf)) :
    fetch_base_fee eip1559_fees.to_int_hexsafe w3 = some bf ∧
    tp = eip1559_fees.tip w3 cfg ∧
    med = eip1559_fees.capped cfg (eip1559_fees.hist_median w3 cfg) ∧
    mf = eip1559_fees.projected_base_max bf cfg.base_fee_bump_blocks + tp := by
  cases hf : fetch_base_fee eip1559_fees.to_int_hexsafe w3 with
  | none => simp [eip1559_fees.estimate_eip1559_fees, hf] at h
  | some bf0 =>
    simp only [eip1559_fees.estimate_eip1559_fees, hf, Except.ok.injEq,
      Prod.mk.injEq] at h
    obtain ⟨h1, h2, h3, h4⟩ := h
    refine ⟨by rw [h1], h2.symm, h3.symm, by rw [← h4, h1, h2]⟩

/-- Inversion of a successful `eip1559_fees` run. -/
theorem estimateB_ok_elim {w3 : W3} {cfg : Config} {bf tp mf : ℤ}
    (h : fees_eip1559.eip1559_fees w3 cfg = .ok (bf, tp, mf)) :
    fetch_base_fee fees_eip1559.to_int_hexsafe w3 = some bf ∧
    tp = fees_eip1559.tip w3 cfg ∧
    mf = fees_eip1559.max_base_fee bf cfg.base_fee_bump_blocks + tp := by
  cases hf : fetch_base_fee fees_eip1559.to_int_hexsafe w3 with
  | none => simp [fees_eip1559.eip1559_fees, hf] at h
  | some bf0 =>
    simp only [fees_eip1559.eip1559_fees, hf, Except.ok.injEq,
      Prod.mk.injEq] at h
    obtain ⟨h1, h2, h3⟩ := h
    refine ⟨by rw [h1], h2.symm, by rw [← h3, h1, h2]⟩

/-! ## Further helper lemmas on the estimator components -/

/-- `roundHalfUpDiv` of non-negative operands is non-negative. -/
theorem roundHalfUpDiv_nonneg {a b : ℤ} (ha : 0 ≤ a) (hb : 0 ≤ b) :
    0 ≤ roundHalfUpDiv a b := by
  rw [roundHalfUpDiv, if_pos ha]
  exact Int.fdiv_nonneg (by omega) (by omega)

/-- The wei cap of `estimate_eip1559_fees` is non-negative for a non-negative
configured cap. -/
theorem capA_nonneg {cfg : Config} (hc : 0 ≤ cfg.max_priority_fee_cap_gwei.n) :
    0 ≤ eip1559_fees.cap_wei cfg :=
  Int.tdiv_nonneg (mul_nonneg hc (by positivity)) (by positivity)

/-- The wei cap of `eip1559_fees` is non-negative for a non-negative
configured cap. -/
theorem capB_nonneg {cfg : Config} (hc : 0 ≤ cfg.max_priority_fee_cap_gwei.n) :
    0 ≤ fees_eip1559.cap_wei cfg :=
  roundHalfUpDiv_nonneg (mul_nonneg hc (by positivity)) (by positivity)

/-- Capping (variant of `eip1559_fees.py`) preserves non-negativity. -/
theorem cappedA_nonneg {cfg : Config} {x : Option ℤ} {v : ℤ}
    (hcap : 0 ≤ eip1559_fees.cap_wei cfg) (hx : ∀ w, x = some w → 0 ≤ w)
    (hv : eip1559_fees.capped cfg x = some v) : 0 ≤ v := by
  cases x with
  | none => simp [eip1559_fees.capped] at hv
  | some w =>
    simp only [eip1559_fees.capped, Option.map_some', Option.some.injEq] at hv
    subst hv
    exact le_min (hx w rfl) hcap

/-- Capping (variant of `fees_eip1559.py`) preserves non-negativity. -/
theorem cappedB_nonneg {cfg : Config} {x : Option ℤ} {v : ℤ}
    (hcap : 0 ≤ fees_eip1559.cap_wei cfg) (hx : ∀ w, x = some w → 0 ≤ w)
    (hv : fees_eip1559.capped cfg x = some v) : 0 ≤ v := by
  cases x with
  | none => simp [fees_eip1559.capped] at hv
  | some w =>
    simp only [fees_eip1559.capped, Option.map_some', Option.some.injEq] at hv
    subst hv
    exact le_min (hx w rfl) hcap

/-- Applying the truncating buffer preserves non-negativity. -/
theorem bufferedA_nonneg {cfg : Config} {x : Option ℤ} {v : ℤ}
    (hbuf : 0 ≤ cfg.priority_fee_buffer.n) (hx : ∀ w, x = some w → 0 ≤ w)
    (hv : eip1559_fees.buffered cfg x = some v) : 0 ≤ v := by
  cases x with
  | none => simp [eip1559_fees.buffered] at hv
  | some w =>
    simp only [eip1559_fees.buffered, Option.map_some', Option.some.injEq] at hv
    subst hv
    exact Int.tdiv_nonneg (mul_nonneg (hx w rfl) (by omega)) (by positivity)

/-- Applying the rounding buffer preserves non-negativity. -/
theorem bufferedB_nonneg {cfg : Config} {x : Option ℤ} {v : ℤ}
    (hbuf : 0 ≤ cfg.priority_fee_buffer.n) (hx : ∀ w, x = some w → 0 ≤ w)
    (hv : fees_eip1559.buffered cfg x = some v) : 0 ≤ v := by
  have hd := cfg.priority_fee_buffer.dpos
  cases x with
  | none => simp [fees_eip1559.buffered] at hv
  | some w =>
    simp only [fees_eip1559.buffered, Option.map_some', Option.some.injEq] at hv
    subst hv
    exact roundHalfEvenDiv_nonneg (mul_nonneg (hx w rfl) (by omega)) (by positivity)

/-- Candidate selection (min policy) preserves non-negativity. -/
theorem tip_from_candidatesA_nonneg {x y : Option ℤ}
    (hx : ∀ v, x = some v → 0 ≤ v) (hy : ∀ v, y = some v → 0 ≤ v) :
    0 ≤ eip1559_fees.tip_from_candidates x y := by
  cases x with
  | none =>
    cases y with
    | none => decide
    | some b => exact hy b rfl
  | some a =>
    cases y with
    | none => exact hx a rfl
    | some b => exact le_min (hx a rfl) (hy b rfl)

/-- Candidate selection (max policy) preserves non-negativity. -/
theorem tip_from_candidatesB_nonneg {x y : Option ℤ}
    (hx : ∀ v, x = some v → 0 ≤ v) (hy : ∀ v, y = some v → 0 ≤ v) :
    0 ≤ fees_eip1559.tip_from_candidates x y := by
  cases x with
  | none =>
    cases y with
    | none => decide
    | some b => exact hy b rfl
  | some a =>
    cases y with
    | none => exact hx a rfl
    | some b => exact le_trans (hx a rfl) (le_max_left a b)

/-- The tip of `estimate_eip1559_fees` is non-negative under non-negative
configuration and non-negative incoming signals. -/
theorem tipA_nonneg {w3 : W3} {cfg : Config}
    (hcap : 0 ≤ cfg.max_priority_fee_cap_gwei.n)
    (hbuf : 0 ≤ cfg.priority_fee_buffer.n)
    (hhist : ∀ m, eip1559_fees.hist_median w3 cfg = some m → 0 ≤ m)
    (hnode : ∀ t, eip1559_fees.node_tip w3 cfg = some t → 0 ≤ t) :
    0 ≤ eip1559_fees.tip w3 cfg := by
  have hc := capA_nonneg hcap
  refine le_min (tip_from_candidatesA_nonneg ?_ ?_) hc
  · intro v hv
    exact bufferedA_nonneg hbuf (fun w hw => cappedA_nonneg hc hhist hw) hv
  · intro v hv
    exact bufferedA_nonneg hbuf (fun w hw => cappedA_nonneg hc hnode hw) hv

/-- The tip of `eip1559_fees` is non-negative under non-negative
configuration and non-negative incoming signals. -/
theorem tipB_nonneg {w3 : W3} {cfg : Config}
    (hcap : 0 ≤ cfg.max_priority_fee_cap_gwei.n)
    (hbuf : 0 ≤ cfg.priority_fee_buffer.n)
    (hhist : ∀ m, fees_eip1559.hist_median w3 = some m → 0 ≤ m)
    (hnode : ∀ t, fees_eip1559.node_tip w3 cfg = some t → 0 ≤ t) :
    0 ≤ fees_eip1559.tip w3 cfg := by
  have hc := capB_nonneg hcap
  refine le_min (tip_from_candidatesB_nonneg ?_ ?_) hc
  · intro v hv
    exact bufferedB_nonneg hbuf (fun w hw => cappedB_nonneg hc hhist hw) hv
  · intro v hv
    exact bufferedB_nonneg hbuf (fun w hw => cappedB_nonneg hc hnode hw) hv

/-- The float-truncating projection is non-negative for a non-negative base
fee. -/
theorem projectedA_nonneg {bf : ℤ} (hbf : 0 ≤ bf) (b : ℕ) :
    0 ≤ eip1559_fees.projected_base_max bf b :=
  Int.tdiv_nonneg (mul_nonneg hbf (by positivity)) (by positivity)

/-- The ceiling projection is non-negative for a non-negative base fee. -/
theorem maxB_nonneg {bf : ℤ} (hbf : 0 ≤ bf) (b : ℕ) :
    0 ≤ fees_eip1559.max_base_fee bf b := by
  have h1 : (0 : ℤ) ≤ bf * 9 ^ b := mul_nonneg hbf (by positivity)
  have h2 : (1 : ℤ) ≤ 8 ^ b := one_le_pow₀ (by norm_num)
  exact Int.fdiv_nonneg (by linarith) (by positivity)

/-- The float-truncating projection of `estimate_eip1559_fees` dominates a
non-negative base fee. -/
theorem projectedA_ge {bf : ℤ} (hbf : 0 ≤ bf) (b : ℕ) :
    bf ≤ eip1559_fees.projected_base_max bf b := by
  rw [eip1559_fees.projected_base_max,
    Int.tdiv_eq_ediv (mul_nonneg hbf (by positivity)) (by positivity),
    Int.le_ediv_iff_mul_le (by positivity)]
  exact mul_le_mul_of_nonneg_left (pow_le_pow_left₀ (by norm_num) (by norm_num) b) hbf

/-- The ceiling projection of `eip1559_fees` dominates a non-negative base
fee. -/
theorem projectedB_ge {bf : ℤ} (hbf : 0 ≤ bf) (b : ℕ) :
    bf ≤ fees_eip1559.max_base_fee bf b := by
  rw [fees_eip1559.max_base_fee, Int.fdiv_eq_ediv _ (by positivity),
    Int.le_ediv_iff_mul_le (by positivity)]
  have h1 : bf * 8 ^ b ≤ bf * 9 ^ b :=
    mul_le_mul_of_nonneg_left (pow_le_pow_left₀ (by norm_num) (by norm_num) b) hbf
  have h2 : (1 : ℤ) ≤ 8 ^ b := one_le_pow₀ (by norm_num)
  linarith

/-- A successful `base_fee_attempt` exposes a successfully fetched block. -/
theorem base_fee_attempt_some {norm : RawVal → Option ℤ} {e : Except Unit Block}
    {bf : ℤ} (h : base_fee_attempt norm e = some bf) :
    ∃ blk, e = .ok blk ∧ base_fee_of_block norm blk = some bf := by
  cases e with
  | error u => simp [base_fee_attempt] at h
  | ok blk => exact ⟨blk, rfl, h⟩

/-- A successful base-fee fetch comes from the "pending" or the "latest"
query. -/
theorem fetch_base_fee_some {norm : RawVal → Option ℤ} {w3 : W3} {bf : ℤ}
    (h : fetch_base_fee norm w3 = some bf) :
    base_fee_attempt norm w3.get_block_pending = some bf ∨
    base_fee_attempt norm w3.get_block_latest = some bf := by
  unfold fetch_base_fee at h
  split at h
  next x hx => exact Or.inl (hx.trans h)
  next hx => exact Or.inr h

/-- `estimate_eip1559_fees` raises exactly when the base-fee fetch fails. -/
theorem estimateA_error_iff (w3 : W3) (cfg : Config) :
    eip1559_fees.estimate_eip1559_fees w3 cfg = .error () ↔
      fetch_base_fee eip1559_fees.to_int_hexsafe w3 = none := by
  cases hf : fetch_base_fee eip1559_fees.to_int_hexsafe w3 <;>
    simp [eip1559_fees.estimate_eip1559_fees, hf]

/-- `eip1559_fees` raises exactly when the base-fee fetch fails. -/
theorem estimateB_error_iff (w3 : W3) (cfg : Config) :
    fees_eip1559.eip1559_fees w3 cfg = .error () ↔
      fetch_base_fee fees_eip1559.to_int_hexsafe w3 = none := by
  cases hf : fetch_base_fee fees_eip1559.to_int_hexsafe w3 <;>
    simp [fees_eip1559.eip1559_fees, hf]

/-- Refinement: for non-empty data and a percentile strictly between 0
and 100, `percentile_value` computes exactly the specification's
percentile-with-interpolation rule at the exact rational percentile. -/
theorem percentile_refines_spec :
    ∀ (data : List ℤ) (p : PyRat), data ≠ [] → 0 < p.n → p.n < 100 * (p.d : ℤ) →
      eip1559_fees.percentile_value data p =
        some (spec_percentile_rule data ((p.n : ℚ) / (p.d : ℚ))) := by
  intro data p hne hpos hlt
  have hdpos : (0 : ℕ) < p.d := p.dpos
  have hkd : (0 : ℤ) < 100 * (p.d : ℤ) := by positivity
  have hkdQ : ((100 * (p.d : ℤ) : ℤ) : ℚ) ≠ 0 := by exact_mod_cast hkd.ne'
  have hdQ : ((p.d : ℕ) : ℚ) ≠ 0 := by positivity
  have hkn : (0 : ℤ) ≤ (((py_sorted data).length - 1 : ℕ) : ℤ) * p.n :=
    mul_nonneg (by positivity) hpos.le
  have hk : (((py_sorted data).length - 1 : ℕ) : ℚ) * (((p.n : ℚ) / (p.d : ℚ)) / 100)
      = (((((py_sorted data).length - 1 : ℕ) : ℤ) * p.n : ℤ) : ℚ)
        / ((100 * (p.d : ℤ) : ℤ) : ℚ) := by
    push_cast
    field_simp
    exact Or.inl (by ring)
  simp only [eip1559_fees.percentile_value, spec_percentile_rule]
  rw [if_neg (by simpa [List.isEmpty_iff] using hne), if_neg (by omega),
    if_neg (by omega), hk,
    ← fdiv_eq_floor _ _ hkd, ← cdiv_eq_ceil _ _ hkd]
  by_cases heq :
      ((((py_sorted data).length - 1 : ℕ) : ℤ) * p.n).fdiv (100 * (p.d : ℤ))
        = cdiv ((((py_sorted data).length - 1 : ℕ) : ℤ) * p.n) (100 * (p.d : ℤ))
  · rw [if_pos heq, if_pos heq, tdiv_eq_fdiv _ _ hkn hkd.le]
  · rw [if_neg heq, if_neg heq, roundHalfEvenDiv_eq _ _ hkd]
    congr 1
    push_cast
    field_simp
    ring_nf

/-! ## The claims -/

/-- Claim C1 (code bug): at a run where both buffered candidates exist
(historical median 100 → buffered 110, node tip 200 → buffered 220, cap
10^9 wei), `estimate_eip1559_fees` chooses the minimum 110 — contradicting
its own inline comment "choose the MAX of them to avoid underpaying" — while
`eip1559_fees` chooses the maximum 220, so the chosen tip before the final
cap is not the maximum of the two buffered candidates in the first variant. -/
theorem claim_C1 :
    eip1559_fees.tip_from_candidates (some 110) (some 220) = 110 ∧
    fees_eip1559.tip_from_candidates (some 110) (some 220) = 220 ∧
    eip1559_fees.estimate_eip1559_fees w3good cfgA0 =
      .ok (1000, 110, some 100, 1375) ∧
    fees_eip1559.eip1559_fees w3good cfgB0 = .ok (1000, 220, 1486) ∧
    (110 : ℤ) ≠ max 110 220 :=
  ⟨by decide, by decide, by decide, by decide, by decide⟩

/-- Claim C2 counterexample: at `currentBaseFee = 7`, `bumpBlocks = 2` the
float-truncating projection of `estimate_eip1559_fees` yields 8, while the
claimed exact ceiling `ceil(7 * 9^2 / 8^2)` is 9, so the claim's universal
statement fails on this implementation. -/
theorem claim_C2_cex :
    eip1559_fees.projected_base_max 7 2 = 8 ∧
    (⌈((7 : ℚ) * 9 ^ 2 / 8 ^ 2)⌉ : ℤ) = 9 ∧
    eip1559_fees.projected_base_max 7 2 ≠ ⌈((7 : ℚ) * 9 ^ 2 / 8 ^ 2)⌉ := by
  have h : (⌈((7 : ℚ) * 9 ^ 2 / 8 ^ 2)⌉ : ℤ) = 9 := by
    rw [show ((7 : ℚ) * 9 ^ 2 / 8 ^ 2) = ((567 : ℤ) : ℚ) / ((64 : ℤ) : ℚ) by norm_num]
    rw [← add_sub_one_fdiv_eq_ceil 567 64 (by norm_num)]
    decide
  exact ⟨by decide, h, by rw [h]; decide⟩

/-- Claim C2 (amended): `eip1559_fees` (fees_eip1559.py) computes the
projection by exact integer ceiling division — it equals
`ceil(currentBaseFee * 9^bump / 8^bump)` for every integer base fee and
every bump count, and yields exactly 126_562_500_000 at
(100_000_000_000, 2); `estimate_eip1559_fees` (eip1559_fees.py) instead
truncates a float product, which agrees with the exact value at the spec's
scenario input (where the division is exact) but floors in general, e.g.
8 instead of 9 at (7, 2). -/
theorem claim_C2 :
    (∀ (bf : ℤ) (b : ℕ),
      fees_eip1559.max_base_fee bf b = ⌈(bf : ℚ) * 9 ^ b / 8 ^ b⌉) ∧
    fees_eip1559.max_base_fee 100000000000 2 = 126562500000 ∧
    eip1559_fees.projected_base_max 100000000000 2 = 126562500000 ∧
    eip1559_fees.projected_base_max 7 2 = 8 := by
  refine ⟨?_, by decide, by decide, by decide⟩
  intro bf b
  rw [fees_eip1559.max_base_fee, add_sub_one_fdiv_eq_ceil _ _ (by positivity)]
  congr 1
  push_cast
  ring

/-- Claim C3 counterexample: on samples [10, 20] with the reward percentile
configured at 75, `eip1559_fees` produces 15 — the integer median — not the
claimed interpolated percentile value 18. -/
theorem claim_C3_cex :
    fees_eip1559.median_of [10, 20] = some 15 ∧
    spec_percentile_rule [10, 20] (((75 : ℤ) : ℚ) / ((1 : ℕ) : ℚ)) = 18 ∧
    (15 : ℤ) ≠ 18 := by
  refine ⟨by decide, ?_, by decide⟩
  have h := percentile_refines_spec [10, 20] ⟨75, 1, by decide⟩
    (by decide) (by decide) (by decide)
  have h2 : eip1559_fees.percentile_value [10, 20] ⟨75, 1, by decide⟩ = some 18 := by
    decide
  rw [h] at h2
  exact Option.some.inj h2

/-- Claim C3 (amended): in `estimate_eip1559_fees` the historical signal is
the interpolated percentile of the sorted samples — for non-empty data and a
percentile strictly between 0 and 100 it equals the specification's
interpolation rule (with Python's round-half-even), and on [10, 20] at the
75th percentile it yields 18; in `eip1559_fees` the historical signal is the
plain integer median of the samples regardless of the configured percentile,
yielding 15 on [10, 20]. -/
theorem claim_C3 :
    (∀ (data : List ℤ) (p : PyRat), data ≠ [] → 0 < p.n → p.n < 100 * (p.d : ℤ) →
      eip1559_fees.percentile_value data p =
        some (spec_percentile_rule data ((p.n : ℚ) / (p.d : ℚ)))) ∧
    eip1559_fees.percentile_value [10, 20] ⟨75, 1, by decide⟩ = some 18 ∧
    fees_eip1559.median_of [10, 20] = some 15 :=
  ⟨percentile_refines_spec, by decide, by decide⟩

/-- Claim C3 witness: the refinement instantiated at the spec's scenario
input [10, 20] at the 75th percentile. -/
theorem claim_C3_witness :
    eip1559_fees.percentile_value [10, 20] ⟨75, 1, by decide⟩ =
      some (spec_percentile_rule [10, 20] (((75 : ℤ) : ℚ) / ((1 : ℕ) : ℚ))) :=
  claim_C3.1 [10, 20] ⟨75, 1, by decide⟩ (by decide) (by decide) (by decide)

/-- Claim C4 counterexample: both normalizers return a negative integer
unchanged instead of mapping it to the absent marker, contradicting the
claim's "negative result yields the absent marker". -/
theorem claim_C4_cex :
    eip1559_fees.to_int_hexsafe (.vint (-5)) = some (-5) ∧
    fees_eip1559.to_int_hexsafe (.vint (-5)) = some (-5) ∧
    (some (-5) : Option ℤ) ≠ none :=
  ⟨by decide, by decide, by decide⟩

/-- Claim C4 (amended): both normalizers are total (the embedding is a total
function — no branch raises) and return the absent marker exactly when the
input is `None`, a string whose parse fails, a byte string whose
ASCII-decimal parse fails (`estimate_eip1559_fees`'s variant only — the
other variant's big-endian bytes branch never fails), or another object on
which `int()` raises; integer inputs — negative ones included — are returned
unchanged, so a negative result is not mapped to the absent marker. -/
theorem claim_C4 :
    (∀ i : ℤ, eip1559_fees.to_int_hexsafe (.vint i) = some i) ∧
    (∀ i : ℤ, fees_eip1559.to_int_hexsafe (.vint i) = some i) ∧
    (∀ v : RawVal, eip1559_fees.to_int_hexsafe v = none ↔
      (v = .vnone ∨ (∃ s, v = .vstr s ∧ eip1559_fees.str_to_int s = none) ∨
       (∃ bs, v = .vbytes bs ∧ pyIntOfChars 10 (bs.map Char.ofNat) = none) ∨
       (∃ t, v = .vother none t))) ∧
    (∀ v : RawVal, fees_eip1559.to_int_hexsafe v = none ↔
      (v = .vnone ∨ (∃ s, v = .vstr s ∧ fees_eip1559.str_to_int s = none) ∨
       (∃ t, v = .vother none t))) := by
  refine ⟨fun i => rfl, fun i => rfl, fun v => ?_, fun v => ?_⟩
  · cases v with
    | vnone => simp [eip1559_fees.to_int_hexsafe]
    | vint i => simp [eip1559_fees.to_int_hexsafe]
    | vstr s => simp [eip1559_fees.to_int_hexsafe]
    | vbytes bs => simp [eip1559_fees.to_int_hexsafe]
    | vother conv t => cases conv <;> simp [eip1559_fees.to_int_hexsafe]
  · cases v with
    | vnone => simp [fees_eip1559.to_int_hexsafe]
    | vint i => simp [fees_eip1559.to_int_hexsafe]
    | vstr s => simp [fees_eip1559.to_int_hexsafe]
    | vbytes bs => simp [fees_eip1559.to_int_hexsafe]
    | vother conv t => cases conv <;> simp [fees_eip1559.to_int_hexsafe]

/-- Claim C5: each estimator raises exactly when both the "pending" and the
"latest" block queries fail to yield a base fee (query raised, base-fee field
absent, or its value unparseable); on failure no result tuple is produced
(the error carries no data), and since the condition mentions only the block
queries, failures of the historical or node-tip queries never cause the
function to fail. -/
theorem claim_C5 : ∀ (w3 : W3) (cfgA cfgB : Config),
    (eip1559_fees.estimate_eip1559_fees w3 cfgA = .error () ↔
      (base_fee_attempt eip1559_fees.to_int_hexsafe w3.get_block_pending = none ∧
       base_fee_attempt eip1559_fees.to_int_hexsafe w3.get_block_latest = none)) ∧
    (fees_eip1559.eip1559_fees w3 cfgB = .error () ↔
      (base_fee_attempt fees_eip1559.to_int_hexsafe w3.get_block_pending = none ∧
       base_fee_attempt fees_eip1559.to_int_hexsafe w3.get_block_latest = none)) := by
  intro w3 cfgA cfgB
  constructor
  · rw [estimateA_error_iff, fetch_base_fee_none_iff]
  · rw [estimateB_error_iff, fetch_base_fee_none_iff]

/-- Claim C6 counterexample: a node may return a negative base-fee encoding;
the run succeeds with `bumpBlocks = 2 ≥ 1`, yet the projected base fee -10 is
smaller than the fetched base fee -8, so the claim's second conjunct fails
without a non-negativity assumption. -/
theorem claim_C6_cex :
    eip1559_fees.estimate_eip1559_fees w3negbase cfgA0 =
      .ok (-8, 100000000, none, 99999990) ∧
    1 ≤ cfgA0.base_fee_bump_blocks ∧
    eip1559_fees.projected_base_max (-8) cfgA0.base_fee_bump_blocks = -10 ∧
    ¬((-8 : ℤ) ≤ -10) :=
  ⟨by decide, by decide, by decide, by decide⟩

/-- Claim C6 (amended): for every successful run of either estimator, the
returned maxFee equals the projected worst-case base fee plus the returned
tip exactly, and — provided the fetched base fee is non-negative — the
projection dominates the base fee whenever `bumpBlocks ≥ 1` (a negative
base-fee encoding from the node breaks the second part, see the
counterexample). -/
theorem claim_C6 : ∀ (w3 : W3) (cfgA cfgB : Config),
    (∀ (bf tp mf : ℤ) (med : Option ℤ),
      eip1559_fees.estimate_eip1559_fees w3 cfgA = .ok (bf, tp, med, mf) →
      mf = eip1559_fees.projected_base_max bf cfgA.base_fee_bump_blocks + tp ∧
      (0 ≤ bf → 1 ≤ cfgA.base_fee_bump_blocks →
        bf ≤ eip1559_fees.projected_base_max bf cfgA.base_fee_bump_blocks)) ∧
    (∀ bf tp mf : ℤ,
      fees_eip1559.eip1559_fees w3 cfgB = .ok (bf, tp, mf) →
      mf = fees_eip1559.max_base_fee bf cfgB.base_fee_bump_blocks + tp ∧
      (0 ≤ bf → 1 ≤ cfgB.base_fee_bump_blocks →
        bf ≤ fees_eip1559.max_base_fee bf cfgB.base_fee_bump_blocks)) := by
  intro w3 cfgA cfgB
  constructor
  · intro bf tp mf med h
    obtain ⟨-, -, -, h4⟩ := estimateA_ok_elim h
    exact ⟨h4, fun hbf _ => projectedA_ge hbf _⟩
  · intro bf tp mf h
    obtain ⟨-, -, h3⟩ := estimateB_ok_elim h
    exact ⟨h3, fun hbf _ => projectedB_ge hbf _⟩

/-- Claim C6 witness: the amended claim applied to a concrete successful
run (base fee 1000, tip 110, maxFee 1375, bump 2). -/
theorem claim_C6_witness :
    (1375 : ℤ) =
      eip1559_fees.projected_base_max 1000 cfgA0.base_fee_bump_blocks + 110 ∧
    (0 ≤ (1000 : ℤ) → 1 ≤ cfgA0.base_fee_bump_blocks →
      (1000 : ℤ) ≤ eip1559_fees.projected_base_max 1000 cfgA0.base_fee_bump_blocks) :=
  (claim_C6 w3good cfgA0 cfgB0).1 1000 110 1375 (some 100) (by decide)

/-- Claim C7: for every successful run of either estimator — whatever
combination of historical / node-tip signals is available — the returned tip
is at most the configured priority-fee cap expressed in wei. -/
theorem claim_C7 : ∀ (w3 : W3) (cfgA cfgB : Config),
    (∀ (bf tp mf : ℤ) (med : Option ℤ),
      eip1559_fees.estimate_eip1559_fees w3 cfgA = .ok (bf, tp, med, mf) →
      tp ≤ eip1559_fees.cap_wei cfgA) ∧
    (∀ bf tp mf : ℤ,
      fees_eip1559.eip1559_fees w3 cfgB = .ok (bf, tp, mf) →
      tp ≤ fees_eip1559.cap_wei cfgB) := by
  intro w3 cfgA cfgB
  constructor
  · intro bf tp mf med h
    obtain ⟨-, h2, -, -⟩ := estimateA_ok_elim h
    rw [h2, eip1559_fees.tip]
    exact min_le_right _ _
  · intro bf tp mf h
    obtain ⟨-, h2, -⟩ := estimateB_ok_elim h
    rw [h2, fees_eip1559.tip]
    exact min_le_right _ _

/-- Claim C7 witness: the cap bound at a concrete run of each variant
(tips 110 and 220, cap 10^9 wei). -/
theorem claim_C7_witness :
    (110 : ℤ) ≤ eip1559_fees.cap_wei cfgA0 ∧
    (220 : ℤ) ≤ fees_eip1559.cap_wei cfgB0 :=
  ⟨(claim_C7 w3good cfgA0 cfgB0).1 1000 110 1375 (some 100) (by decide),
   (claim_C7 w3good cfgA0 cfgB0).2 1000 220 1486 (by decide)⟩

/-- Claim C8 counterexample: with three configured attempts, the first
access succeeds but returns a value that fails normalization; the loop stops
at once with the absent marker instead of retrying, although the very next
attempt held a usable value (5).  So normalization failures are NOT
retried. -/
theorem claim_C8_cex :
    node_tip_attempts eip1559_fees.to_int_hexsafe w3retry 3 0 = none ∧
    w3retry.max_priority_fee 1 = .ok (.vint 5) ∧
    eip1559_fees.to_int_hexsafe (.vint 5) = some 5 :=
  ⟨by decide, by decide, by decide⟩

/-- Claim C8 (amended): the node-tip query is retried up to the configured
attempt count only on raised exceptions — when every attempt raises the
result is the absent marker; the first non-raising attempt ends the loop at
once with its normalized value, so a malformed-but-delivered response or a
normalization failure yields the absent marker without further retries — and
the node-tip outcome never aborts the overall estimation: whether either
estimator raises depends only on the two block queries. -/
theorem claim_C8 :
    (∀ (norm : RawVal → Option ℤ) (w3 : W3) (n i : ℕ),
      ((∀ j, j < n → w3.max_priority_fee (i + j) = .error ()) →
        node_tip_attempts norm w3 n i = none) ∧
      (∀ (j : ℕ) (v : RawVal), j < n →
        (∀ m, m < j → w3.max_priority_fee (i + m) = .error ()) →
        w3.max_priority_fee (i + j) = .ok v →
        node_tip_attempts norm w3 n i = norm v)) ∧
    (∀ (w3 w3' : W3) (cfg : Config),
      w3.get_block_pending = w3'.get_block_pending →
      w3.get_block_latest = w3'.get_block_latest →
      (eip1559_fees.estimate_eip1559_fees w3 cfg = .error () ↔
        eip1559_fees.estimate_eip1559_fees w3' cfg = .error ())) ∧
    (∀ (w3 w3' : W3) (cfg : Config),
      w3.get_block_pending = w3'.get_block_pending →
      w3.get_block_latest = w3'.get_block_latest →
      (fees_eip1559.eip1559_fees w3 cfg = .error () ↔
        fees_eip1559.eip1559_fees w3' cfg = .error ())) := by
  refine ⟨?_, ?_, ?_⟩
  · intro norm w3 n i
    exact ⟨node_tip_attempts_all_error norm w3 n i,
      fun j v hj hprev hok => node_tip_attempts_first_ok norm w3 n i j v hj hprev hok⟩
  · intro w3 w3' cfg hp hl
    rw [estimateA_error_iff, estimateA_error_iff]
    simp only [fetch_base_fee, hp, hl]
  · intro w3 w3' cfg hp hl
    rw [estimateB_error_iff, estimateB_error_iff]
    simp only [fetch_base_fee, hp, hl]

/-- Claim C8 witness: the amended claim applied to a node whose tip query
raises on all of the three configured attempts. -/
theorem claim_C8_witness :
    node_tip_attempts eip1559_fees.to_int_hexsafe w3down 3 0 = none :=
  (claim_C8.1 eip1559_fees.to_int_hexsafe w3down 3 0).1 (by decide)

/-- Claim C9 counterexample: when the node returns negative encodings
(tip suggestion -100, base fee -5), both estimators return a negative base
fee, a negative tip (-110) and a negative maxFee — the normalizers accept
negative integers, so the triple is not always non-negative. -/
theorem claim_C9_cex :
    eip1559_fees.estimate_eip1559_fees w3neg cfgA0 = .ok (-5, -110, none, -116) ∧
    fees_eip1559.eip1559_fees w3neg cfgB0 = .ok (-5, -110, -116) ∧
    ¬(0 ≤ (-110 : ℤ)) :=
  ⟨by decide, by decide, by decide⟩

/-- Claim C9 (amended): provided every value the node supplies normalizes to
a non-negative integer and the configured cap and buffer are non-negative,
every component of the returned triple — base fee, tip, and maxFee — is
non-negative, for both estimators and every combination of available /
unavailable signals. -/
theorem claim_C9 : ∀ (w3 : W3) (cfgA cfgB : Config),
    nonneg_node_values eip1559_fees.to_int_hexsafe w3 →
    nonneg_node_values fees_eip1559.to_int_hexsafe w3 →
    0 ≤ cfgA.max_priority_fee_cap_gwei.n → 0 ≤ cfgA.priority_fee_buffer.n →
    0 ≤ cfgB.max_priority_fee_cap_gwei.n → 0 ≤ cfgB.priority_fee_buffer.n →
    (∀ (bf tp mf : ℤ) (med : Option ℤ),
      eip1559_fees.estimate_eip1559_fees w3 cfgA = .ok (bf, tp, med, mf) →
      0 ≤ bf ∧ 0 ≤ tp ∧ 0 ≤ mf) ∧
    (∀ bf tp mf : ℤ,
      fees_eip1559.eip1559_fees w3 cfgB = .ok (bf, tp, mf) →
      0 ≤ bf ∧ 0 ≤ tp ∧ 0 ≤ mf) := by
  intro w3 cfgA cfgB hA hB hcapA hbufA hcapB hbufB
  obtain ⟨hAhist, hAnode, hAblk⟩ := hA
  obtain ⟨hBhist, hBnode, hBblk⟩ := hB
  constructor
  · intro bf tp mf med h
    obtain ⟨h1, h2, -, h4⟩ := estimateA_ok_elim h
    have hbf : 0 ≤ bf := by
      rcases fetch_base_fee_some h1 with hp | hp <;>
        · obtain ⟨blk, hblk, hval⟩ := base_fee_attempt_some hp
          first
            | exact hAblk blk bf (Or.inl hblk) hval
            | exact hAblk blk bf (Or.inr hblk) hval
    have htp : 0 ≤ tp := by
      rw [h2]
      refine tipA_nonneg hcapA hbufA ?_ ?_
      · intro m hm
        rw [eip1559_fees.hist_median] at hm
        split at hm
        · exact absurd hm (by simp)
        next rewards hfh =>
          exact percentile_value_nonneg
            (flatten_rewards_nonneg rewards (hAhist rewards hfh)) hm
      · intro t ht
        obtain ⟨j, v, -, hok, hnorm⟩ :=
          node_tip_attempts_some eip1559_fees.to_int_hexsafe w3 _ _ _ ht
        exact hAnode _ v t hok hnorm
    refine ⟨hbf, htp, ?_⟩
    rw [h4]
    exact add_nonneg (projectedA_nonneg hbf _) htp
  · intro bf tp mf h
    obtain ⟨h1, h2, h3⟩ := estimateB_ok_elim h
    have hbf : 0 ≤ bf := by
      rcases fetch_base_fee_some h1 with hp | hp <;>
        · obtain ⟨blk, hblk, hval⟩ := base_fee_attempt_some hp
          first
            | exact hBblk blk bf (Or.inl hblk) hval
            | exact hBblk blk bf (Or.inr hblk) hval
    have htp : 0 ≤ tp := by
      rw [h2]
      refine tipB_nonneg hcapB hbufB ?_ ?_
      · intro m hm
        rw [fees_eip1559.hist_median] at hm
        split at hm
        · exact absurd hm (by simp)
        next rewards hfh =>
          exact median_of_nonneg
            (collect_tips_nonneg rewards (hBhist rewards hfh)) hm
      · intro t ht
        obtain ⟨j, v, -, hok, hnorm⟩ :=
          node_tip_attempts_some fees_eip1559.to_int_hexsafe w3 _ _ _ ht
        exact hBnode _ v t hok hnorm
    refine ⟨hbf, htp, ?_⟩
    rw [h3]
    exact add_nonneg (maxB_nonneg hbf _) htp

/-- Claim C9 witness: the amended claim applied to a well-behaved node,
giving the non-negativity of the concrete triples (1000, 110, 1375) and
(1000, 220, 1486). -/
theorem claim_C9_witness :
    (0 ≤ (1000 : ℤ) ∧ 0 ≤ (110 : ℤ) ∧ 0 ≤ (1375 : ℤ)) ∧
    (0 ≤ (1000 : ℤ) ∧ 0 ≤ (220 : ℤ) ∧ 0 ≤ (1486 : ℤ)) := by
  have hA : nonneg_node_values eip1559_fees.to_int_hexsafe w3good := by
    refine ⟨?_, ?_, ?_⟩
    · intro rewards hfh obr hobr br hbr r hr z hz
      cases hfh
      simp only [List.mem_singleton] at hobr
      subst hobr
      cases hbr
      simp only [List.mem_singleton] at hr
      subst hr
      cases hz
      decide
    · intro i v z hok hz
      cases hok
      cases hz
      decide
    · intro blk z hblk hz
      rcases hblk with hblk | hblk <;> cases hblk <;> cases hz <;> decide
  have hB : nonneg_node_values fees_eip1559.to_int_hexsafe w3good := by
    refine ⟨?_, ?_, ?_⟩
    · intro rewards hfh obr hobr br hbr r hr z hz
      cases hfh
      simp only [List.mem_singleton] at hobr
      subst hobr
      cases hbr
      simp only [List.mem_singleton] at hr
      subst hr
      cases hz
      decide
    · intro i v z hok hz
      cases hok
      cases hz
      decide
    · intro blk z hblk hz
      rcases hblk with hblk | hblk <;> cases hblk <;> cases hz <;> decide
  have h := claim_C9 w3good cfgA0 cfgB0 hA hB
    (by decide) (by decide) (by decide) (by decide)
  exact ⟨h.1 1000 110 1375 (some 100) (by decide), h.2 1000 220 1486 (by decide)⟩

/-- Claim C10 counterexample: the normalizer of `estimate_eip1559_fees` has
no bytes branch — the two-byte sequence 0x01 0x00 falls through to `int()`,
which raises, so the result is the absent marker rather than 256. -/
theorem claim_C10_cex :
    eip1559_fees.to_int_hexsafe (.vbytes [1, 0]) = none ∧
    (none : Option ℤ) ≠ some 256 :=
  ⟨by decide, by decide⟩

/-- Claim C10 (amended): the normalizer of `eip1559_fees` (fees_eip1559.py)
interprets every byte sequence as a big-endian unsigned integer (0x01 0x00 →
256); the normalizer of `estimate_eip1559_fees` (eip1559_fees.py) has no
bytes branch and falls through to Python's `int()`, which parses bytes as an
ASCII decimal literal (b"256" → 256) and yields the absent marker
otherwise. -/
theorem claim_C10 :
    (∀ bs : List ℕ,
      fees_eip1559.to_int_hexsafe (.vbytes bs) = some (fees_eip1559.be_bytes bs)) ∧
    fees_eip1559.to_int_hexsafe (.vbytes [1, 0]) = some 256 ∧
    eip1559_fees.to_int_hexsafe (.vbytes [1, 0]) = none ∧
    eip1559_fees.to_int_hexsafe (.vbytes [50, 53, 54]) = some 256 :=
  ⟨fun _ => rfl, by decide, by decide, by decide⟩
